import Mathlib

/-!
Verification of the pre-commit dune-file formatting wrapper.

This file gives a shallow embedding of `src/pre_commit_dune_format_dune_file/format.py`
and proves the behavioural properties claimed of it.

Modelling choices:
* The filesystem is an association list from path strings to regular-file states
  (`content`, `readable`, `writable`).  A path absent from the list is not an
  existing regular file (`path.isfile()` is false there).
* The external formatter (`dune format-dune-file <path>`) is an oracle
  `fmt : String → FmtResult` recording, per path, whether the subprocess exits 0
  with some captured stdout, exits non-zero with a return code, or raises an
  unexpected exception (e.g. the executable vanished).  The model assumes the
  `dune` executable itself was found (`dune_get_exe` succeeded).
* Temporary files created by `tempfile.NamedTemporaryFile` in the scoped temp
  directory are an association list from a fresh numeric id to their content;
  `NamedTemporaryFile` creates them empty, `open(tmp, "w")` overwrites them.
* Python exceptions escaping `real_main` are modelled by `PyExc`; `main`'s
  `try`/`except` dispatch is `main_dispatch` (any `Exception` gives exit code 1,
  `KeyboardInterrupt` gives exit code 0, a normal return gives its own code).
-/

set_option maxHeartbeats 1000000

namespace DuneFormat

/-- The state of one existing regular file: its byte content and whether the
process has read/write access to it (`path.access(os.R_OK / os.W_OK)`). -/
structure FileInfo where
  content : String
  readable : Bool
  writable : Bool
deriving DecidableEq

/-- The filesystem visible to the program: existing regular files keyed by path. -/
abbrev FS := List (String × FileInfo)

/-- Look a path up in the filesystem (first matching entry). -/
def lookupFs : FS → String → Option FileInfo
  | [], _ => none
  | (k, fi) :: rest, p => if k = p then some fi else lookupFs rest p

/-- The content of the file at a path, when it exists. -/
def lookupContent (fs : FS) (p : String) : Option String :=
  (lookupFs fs p).map FileInfo.content

/-- Overwrite the content of the file at a path (`open(path, "w"); write`),
leaving permissions untouched.  A path with no file is left unchanged. -/
def setFile : FS → String → String → FS
  | [], _, _ => []
  | (k, fi) :: rest, p, c =>
    if k = p then (k, { fi with content := c }) :: rest
    else (k, fi) :: setFile rest p c

/-- Characters of the base name: everything after the last slash. -/
def baseNameAux (cur : List Char) : List Char → List Char
  | [] => cur
  | c :: rest => if c = '/' then baseNameAux [] rest else baseNameAux (cur ++ [c]) rest

/-- `os.path.basename`, as used by `path.name` in `get_dune_file_path`. -/
def baseName (p : String) : String := String.mk (baseNameAux [] p.data)

/-- The permitted base names, `_dune_file_names` in the source. -/
def dune_file_names : List String := ["dune", "dune-project", "dune-workspace"]

/-- The Python exceptions that can escape `real_main` in the model. -/
inductive PyExc
  | typeError
  | permissionError
  | fileNotFoundError
  | unboundLocalError
deriving DecidableEq

/-- `get_dune_file_path` (format.py lines 51-60): `some path` when the path is an
existing regular file with a permitted base name and both access checks pass,
`none` (the wrong-name outcome, turned into a `TypeError` by the caller) when it
is not an existing regular file with a permitted name, and a raised
`PermissionError` when the name check passes but an access check fails. -/
def get_dune_file_path (fs : FS) (arg : String) : Except PyExc (Option String) :=
  match lookupFs fs arg with
  | some fi =>
    if baseName arg ∈ dune_file_names then
      if fi.readable = false then .error .permissionError
      else if fi.writable = false then .error .permissionError
      else .ok (some arg)
    else .ok none
  | none => .ok none

/-- Result of one `subprocess.run((dune, "format-dune-file", path), check=True)`. -/
inductive FmtResult
  | ok (stdout : String)
  | err (returncode : Int) (stdout : String)
  | unexpected
deriving DecidableEq

/-- The captured stdout of a formatter result (empty when nothing was captured). -/
def outOf : FmtResult → String
  | .ok s => s
  | .err _ s => s
  | .unexpected => ""

/-- The external world: the formatter oracle and the strings printed by the
`--version` branch. -/
structure Env where
  fmt : String → FmtResult
  toolVersion : String
  duneVersionStdout : String

/-- The parsed command-line arguments relevant to behaviour. -/
structure Args where
  version : Bool
  in_place : Bool
  dune_files : List String

/-- How one run of `real_main` terminates: a returned exit code, an escaping
Python exception, or a `KeyboardInterrupt`. -/
inductive Term
  | ret (c : Int)
  | exn (e : PyExc)
  | kbInterrupt
deriving DecidableEq

/-- `main` (format.py lines 213-222): a normal return propagates its code, any
`Exception` is caught and turned into exit code 1, and a `KeyboardInterrupt`
(not an `Exception` subclass) is caught and turned into exit code 0. -/
def main_dispatch : Term → Int
  | .ret c => c
  | .exn _ => 1
  | .kbInterrupt => 0

/-- The `orig_dune_to_tmp_dune` dictionary: insertion-ordered, each original
path mapped to its staged temporary file id (`none` in stream mode). -/
abbrev Dict := List (String × Option Nat)

/-- Python dict assignment `d[k] = v`: update the existing entry in place
(keeping its position) or append a new one. -/
def dictInsert : Dict → String → Option Nat → Dict
  | [], k, v => [(k, v)]
  | (k', v') :: rest, k, v =>
    if k' = k then (k', v) :: rest else (k', v') :: dictInsert rest k v

/-- The temp-file ids recorded in a dict. -/
def ids (d : Dict) : List Nat := d.filterMap Prod.snd

/-- The temporary directory: temp files keyed by their creation id. -/
abbrev Temps := List (Nat × String)

/-- Read a temporary file. -/
def lookupTemp : Temps → Nat → Option String
  | [], _ => none
  | (t, c) :: rest, u => if t = u then some c else lookupTemp rest u

/-- Write (or create) a temporary file. -/
def updTemp : Temps → Nat → String → Temps
  | [], t, c => [(t, c)]
  | (t', c') :: rest, t, c =>
    if t' = t then (t', c) :: rest else (t', c') :: updTemp rest t c

/-- The validation/staging loop of `real_main` (format.py lines 110-130): resolve
each argument, raising `TypeError` on a wrong-name result; in in-place mode
create a fresh empty temporary file and record it in the dict, in stream mode
record `none`.  Returns the dict, the temp directory and the next fresh id. -/
def validateLoop (fs : FS) (in_place : Bool) :
    List String → Nat → Dict → Temps → Except PyExc (Dict × Temps × Nat)
  | [], n, acc, ts => .ok (acc, ts, n)
  | a :: rest, n, acc, ts =>
    match get_dune_file_path fs a with
    | .error e => .error e
    | .ok none => .error .typeError
    | .ok (some p) =>
      if in_place then
        validateLoop fs in_place rest (n + 1) (dictInsert acc p (some n)) (ts ++ [(n, "")])
      else
        validateLoop fs in_place rest n (dictInsert acc p none) ts

/-- Mutable state of the formatting loop: the temp directory, the stdout printed
so far, the formatter invocations made so far, and whether `df_res` is bound. -/
structure FmtState where
  temps : Temps
  stdout : String
  calls : List String
  havePrevRes : Bool
deriving DecidableEq

/-- The formatting loop of `real_main` (format.py lines 132-168), iterating the
dict in insertion order.  A non-zero formatter exit returns that code.  Any
other subprocess exception reaches the generic handler, which reads `df_res`:
unbound on the first iteration (an `UnboundLocalError` escapes), otherwise the
handler logs stale output and returns 1.  On success the captured stdout is
written to the staged temp file (in-place) or printed (stream).  The first
component is `some t` when the loop terminated early with `t`. -/
def formatLoop (env : Env) (in_place : Bool) :
    List (String × Option Nat) → FmtState → Option Term × FmtState
  | [], st => (none, st)
  | (orig, tmp) :: rest, st =>
    let st1 := { st with calls := st.calls ++ [orig] }
    match env.fmt orig with
    | .err rc _ => (some (.ret rc), st1)
    | .unexpected =>
      if st1.havePrevRes then (some (.ret 1), st1)
      else (some (.exn .unboundLocalError), st1)
    | .ok s =>
      let st2 := { st1 with havePrevRes := true }
      if in_place then
        match tmp with
        | none => (some (.exn .fileNotFoundError), st2)
        | some t => formatLoop env in_place rest { st2 with temps := updTemp st2.temps t s }
      else
        formatLoop env in_place rest { st2 with stdout := st2.stdout ++ s }

/-- The commit loop of `real_main` (format.py lines 169-183): copy each staged
temp file over its original file, in dict order.  A missing staging entry
raises `FileNotFoundError`. -/
def commitLoop (ts : Temps) : List (String × Option Nat) → FS → Except PyExc FS
  | [], fs => .ok fs
  | (orig, tmp) :: rest, fs =>
    match tmp with
    | none => .error .fileNotFoundError
    | some t => commitLoop ts rest (setFile fs orig ((lookupTemp ts t).getD ""))

/-- Concatenation of a list of strings in order. -/
def concatAll : List String → String
  | [] => ""
  | s :: rest => s ++ concatAll rest

/-- First-occurrence deduplication of a list, appended after `acc`; mirrors how
repeated `dictInsert` calls grow the dict's key list. -/
def dedupAppend (acc : List String) : List String → List String
  | [] => acc
  | a :: rest => if a ∈ acc then dedupAppend acc rest else dedupAppend (acc ++ [a]) rest

/-- `program_name` in the source. -/
def program_name : String := "pre-commit-dune-format-dune-file"

/-- The exact stdout of the `--version` branch (format.py lines 83-94): one
`print` with a trailing newline for the tool's own version, then one
`print(..., end="")` for the formatter's reported version. -/
def versionStdout (env : Env) : String :=
  program_name ++ " version: " ++ env.toolVersion ++ "\n" ++
    "dune format-dune-file version: " ++ env.duneVersionStdout

/-- The observable outcome of one run of `real_main`: how it terminated, the
final filesystem, everything printed to stdout, and the list of files the
formatter subprocess was invoked on, in invocation order. -/
structure RMOut where
  term : Term
  fs : FS
  stdout : String
  calls : List String
deriving DecidableEq

/-- `real_main` (format.py lines 82-184): the `--version` branch, then the
validation/staging loop, the formatting loop, and (in in-place mode, only when
every formatting succeeded) the commit loop. -/
def real_main (env : Env) (args : Args) (fs : FS) : RMOut :=
  if args.version then
    { term := .ret 0, fs := fs, stdout := versionStdout env, calls := [] }
  else
    match validateLoop fs args.in_place args.dune_files 0 [] [] with
    | .error e => { term := .exn e, fs := fs, stdout := "", calls := [] }
    | .ok (d, ts, _) =>
      let st0 : FmtState := { temps := ts, stdout := "", calls := [], havePrevRes := false }
      match formatLoop env args.in_place d st0 with
      | (some t, st) => { term := t, fs := fs, stdout := st.stdout, calls := st.calls }
      | (none, st) =>
        if args.in_place then
          match commitLoop st.temps d fs with
          | .error e => { term := .exn e, fs := fs, stdout := st.stdout, calls := st.calls }
          | .ok fs2 => { term := .ret 0, fs := fs2, stdout := st.stdout, calls := st.calls }
        else
          { term := .ret 0, fs := fs, stdout := st.stdout, calls := st.calls }

/-! ### Concrete instances used by the witnesses -/

/-- Witness world for claim C1: `a/dune` formats fine, `b/dune` exits 2. -/
def envW1 : Env := ⟨fun p => if p = "a/dune" then .ok "fa" else .err 2 "boom", "1.0", "3.16\n"⟩

def fsW1 : FS := [("a/dune", ⟨"A0", true, true⟩), ("b/dune", ⟨"B0", true, true⟩)]

def argsW1 : Args := ⟨false, true, ["a/dune", "b/dune"]⟩

/-- Witness world for claim C2: both files format successfully. -/
def envW2 : Env := ⟨fun p => if p = "a/dune" then .ok "fa" else .ok "fb", "1.0", "3.16\n"⟩

def fsW2 : FS := [("a/dune", ⟨"A0", true, true⟩), ("b/dune", ⟨"B0", true, true⟩)]

def argsW2 : Args := ⟨false, true, ["a/dune", "b/dune"]⟩

/-- Witness world for claim C3: stream mode over two distinct files. -/
def envW3 : Env := ⟨fun p => if p = "a/dune" then .ok "X" else .ok "Y", "1.0", "3.16\n"⟩

def fsW3 : FS := [("a/dune", ⟨"A0", true, true⟩), ("b/dune", ⟨"B0", true, true⟩)]

def argsW3 : Args := ⟨false, false, ["a/dune", "b/dune"]⟩

/-- Witness world for claim C4: a path with a wrong base name. -/
def envW4 : Env := ⟨fun _ => .unexpected, "1.0", "3.16\n"⟩

def fsW4 : FS := []

def argsW4 : Args := ⟨false, false, ["BUILD.bazel"]⟩

/-- Witness world for claim C5: a dune file lacking read permission. -/
def envW5 : Env := ⟨fun _ => .unexpected, "1.0", "3.16\n"⟩

def fsW5 : FS := [("dune", ⟨"c", false, true⟩)]

def argsW5 : Args := ⟨false, false, ["dune"]⟩

/-- Witness world for claim C6: the formatter raises an unexpected exception. -/
def envW6 : Env := ⟨fun _ => .unexpected, "1.0", "3.16\n"⟩

def fsW6 : FS := [("dune", ⟨"c", true, true⟩)]

def argsW6 : Args := ⟨false, false, ["dune"]⟩

/-- Witness world for claim C8: the version flag is set. -/
def envW8 : Env := ⟨fun _ => .unexpected, "0.5.0", "3.16.0\n"⟩

def fsW8 : FS := [("dune", ⟨"c", true, true⟩)]

def argsW8 : Args := ⟨true, false, ["dune"]⟩

/-- Witness world for claim C9: the same file is named twice. -/
def envW9 : Env := ⟨fun _ => .ok "Z", "1.0", "3.16\n"⟩

def fsW9 : FS := [("dune", ⟨"c", true, true⟩)]

def argsW9 : Args := ⟨false, false, ["dune", "dune"]⟩

/-! ## Helper lemmas -/

theorem str_append_assoc (a b c : String) : a ++ b ++ c = a ++ (b ++ c) := by
  obtain ⟨la⟩ := a
  obtain ⟨lb⟩ := b
  obtain ⟨lc⟩ := c
  show String.mk (la ++ lb ++ lc) = String.mk (la ++ (lb ++ lc))
  rw [List.append_assoc]

theorem str_empty_append (s : String) : "" ++ s = s := by
  obtain ⟨l⟩ := s
  show String.mk ([] ++ l) = String.mk l
  rw [List.nil_append]

theorem nodup_append_singleton {α : Type} {l : List α} {a : α}
    (h1 : l.Nodup) (h2 : a ∉ l) : (l ++ [a]).Nodup := by
  simp [List.nodup_append, h1, h2]

theorem get_dune_ok_some {fs : FS} {a p : String}
    (h : get_dune_file_path fs a = .ok (some p)) :
    p = a ∧ (lookupFs fs a).isSome = true := by
  cases hlk : lookupFs fs a with
  | none => simp [get_dune_file_path, hlk] at h
  | some fi =>
    simp only [get_dune_file_path, hlk] at h
    by_cases hn : baseName a ∈ dune_file_names
    · rw [if_pos hn] at h
      by_cases hr : fi.readable = false
      · rw [if_pos hr] at h; simp at h
      · rw [if_neg hr] at h
        by_cases hw : fi.writable = false
        · rw [if_pos hw] at h; simp at h
        · rw [if_neg hw] at h
          simp only [Except.ok.injEq, Option.some.injEq] at h
          exact ⟨h.symm, rfl⟩
    · rw [if_neg hn] at h; simp at h

theorem get_dune_wrong_name (fs : FS) (a : String)
    (h : lookupFs fs a = none ∨ baseName a ∉ dune_file_names) :
    get_dune_file_path fs a = .ok none := by
  cases hlk : lookupFs fs a with
  | none => simp [get_dune_file_path, hlk]
  | some fi =>
    simp only [get_dune_file_path, hlk]
    rcases h with h | h
    · rw [hlk] at h; cases h
    · rw [if_neg h]

theorem get_dune_perm (fs : FS) (a : String) (fi : FileInfo)
    (hlk : lookupFs fs a = some fi)
    (hn : baseName a ∈ dune_file_names)
    (hp : fi.readable = false ∨ fi.writable = false) :
    get_dune_file_path fs a = .error .permissionError := by
  simp only [get_dune_file_path, hlk]
  rw [if_pos hn]
  rcases hp with hp | hp
  · rw [if_pos hp]
  · by_cases hr : fi.readable = false
    · rw [if_pos hr]
    · rw [if_neg hr, if_pos hp]

theorem mem_dictInsert {d : Dict} {k : String} {v : Option Nat} {pr : String × Option Nat}
    (h : pr ∈ dictInsert d k v) : pr = (k, v) ∨ pr ∈ d := by
  induction d with
  | nil => simpa [dictInsert] using h
  | cons hd tl ih =>
    obtain ⟨k', v'⟩ := hd
    by_cases he : k' = k
    · subst he
      simp only [dictInsert, if_pos rfl] at h
      rcases List.mem_cons.mp h with h | h
      · exact Or.inl h
      · exact Or.inr (List.mem_cons_of_mem _ h)
    · simp only [dictInsert, if_neg he] at h
      rcases List.mem_cons.mp h with h | h
      · exact Or.inr (h ▸ List.mem_cons_self _ _)
      · rcases ih h with h | h
        · exact Or.inl h
        · exact Or.inr (List.mem_cons_of_mem _ h)

theorem keys_dictInsert (d : Dict) (k : String) (v : Option Nat) :
    (dictInsert d k v).map Prod.fst =
      if k ∈ d.map Prod.fst then d.map Prod.fst else d.map Prod.fst ++ [k] := by
  induction d with
  | nil => simp [dictInsert]
  | cons hd tl ih =>
    obtain ⟨k', v'⟩ := hd
    by_cases he : k' = k
    · subst he
      simp [dictInsert]
    · simp only [dictInsert, if_neg he, List.map_cons]
      rw [ih]
      by_cases hm : k ∈ tl.map Prod.fst
      · rw [if_pos hm, if_pos (List.mem_cons_of_mem _ hm)]
      · rw [if_neg hm, if_neg ?hnc]
        · simp
        · intro hc
          rcases List.mem_cons.mp hc with hc | hc
          · exact he hc.symm
          · exact hm hc

theorem keys_nodup_dictInsert {d : Dict} {k : String} {v : Option Nat}
    (h : (d.map Prod.fst).Nodup) : ((dictInsert d k v).map Prod.fst).Nodup := by
  rw [keys_dictInsert]
  by_cases hm : k ∈ d.map Prod.fst
  · rwa [if_pos hm]
  · rw [if_neg hm]
    exact nodup_append_singleton h hm

theorem mem_ids {d : Dict} {w : Nat} : w ∈ ids d ↔ ∃ pr, pr ∈ d ∧ pr.2 = some w := by
  simp [ids, List.mem_filterMap]

theorem mem_ids_dictInsert {d : Dict} {k : String} {v : Option Nat} {w : Nat}
    (h : w ∈ ids (dictInsert d k v)) : v = some w ∨ w ∈ ids d := by
  rw [mem_ids] at h
  obtain ⟨pr, hpr, hsnd⟩ := h
  rcases mem_dictInsert hpr with he | hm
  · left
    rw [he] at hsnd
    exact hsnd
  · right
    rw [mem_ids]
    exact ⟨pr, hm, hsnd⟩

theorem dictInsert_fresh {d : Dict} {k : String} {n : Nat}
    (hb : ∀ pr ∈ d, ∃ t, pr.2 = some t ∧ t < n)
    (hn : (ids d).Nodup) :
    (∀ pr ∈ dictInsert d k (some n), ∃ t, pr.2 = some t ∧ t < n + 1) ∧
      (ids (dictInsert d k (some n))).Nodup := by
  induction d with
  | nil =>
    constructor
    · intro pr hpr
      simp only [dictInsert, List.mem_singleton] at hpr
      subst hpr
      exact ⟨n, rfl, Nat.lt_succ_self n⟩
    · simp [dictInsert, ids, List.filterMap_cons]
  | cons hd tl ih =>
    obtain ⟨k', v'⟩ := hd
    obtain ⟨u', hu', hlt'⟩ := hb (k', v') (List.mem_cons_self _ _)
    simp only at hu'
    subst hu'
    have hids : ids ((k', some u') :: tl) = u' :: ids tl := by
      simp [ids, List.filterMap_cons]
    rw [hids] at hn
    have hn1 : (ids tl).Nodup := (List.nodup_cons.mp hn).2
    have hunin : u' ∉ ids tl := (List.nodup_cons.mp hn).1
    have hbtl : ∀ pr ∈ tl, ∃ t, pr.2 = some t ∧ t < n :=
      fun pr h => hb pr (List.mem_cons_of_mem _ h)
    by_cases he : k' = k
    · subst he
      constructor
      · intro pr hpr
        simp only [dictInsert, if_pos rfl] at hpr
        rcases List.mem_cons.mp hpr with h | h
        · subst h
          exact ⟨n, rfl, Nat.lt_succ_self n⟩
        · obtain ⟨t, ht, hlt⟩ := hbtl pr h
          exact ⟨t, ht, Nat.lt_succ_of_lt hlt⟩
      · have hd2 : dictInsert ((k', some u') :: tl) k' (some n) = (k', some n) :: tl := by
          simp [dictInsert]
        rw [hd2]
        have hids2 : ids ((k', some n) :: tl) = n :: ids tl := by
          simp [ids, List.filterMap_cons]
        rw [hids2]
        refine List.nodup_cons.mpr ⟨?_, hn1⟩
        intro hmem
        obtain ⟨pr, hpr, hsnd⟩ := mem_ids.mp hmem
        obtain ⟨t, ht, hlt⟩ := hbtl pr hpr
        rw [ht] at hsnd
        injection hsnd with hee
        omega
    · obtain ⟨ihb, ihn⟩ := ih hbtl hn1
      constructor
      · intro pr hpr
        simp only [dictInsert, if_neg he] at hpr
        rcases List.mem_cons.mp hpr with h | h
        · subst h
          exact ⟨u', rfl, Nat.lt_succ_of_lt hlt'⟩
        · exact ihb pr h
      · simp only [dictInsert, if_neg he]
        have hids3 : ids ((k', some u') :: dictInsert tl k (some n)) =
            u' :: ids (dictInsert tl k (some n)) := by
          simp [ids, List.filterMap_cons]
        rw [hids3]
        refine List.nodup_cons.mpr ⟨?_, ihn⟩
        intro hmem
        rcases mem_ids_dictInsert hmem with h | h
        · injection h with hee
          omega
        · exact hunin h

theorem lookupTemp_updTemp_self (ts : Temps) (t : Nat) (c : String) :
    lookupTemp (updTemp ts t c) t = some c := by
  induction ts with
  | nil => simp [updTemp, lookupTemp]
  | cons hd tl ih =>
    obtain ⟨t', c'⟩ := hd
    by_cases he : t' = t
    · subst he
      simp [updTemp, lookupTemp]
    · simp only [updTemp, if_neg he, lookupTemp]
      exact ih

theorem lookupTemp_updTemp_ne {ts : Temps} {t u : Nat} {c : String} (h : u ≠ t) :
    lookupTemp (updTemp ts t c) u = lookupTemp ts u := by
  induction ts with
  | nil =>
    simp only [updTemp, lookupTemp]
    rw [if_neg (fun he => h he.symm)]
  | cons hd tl ih =>
    obtain ⟨t', c'⟩ := hd
    by_cases he : t' = t
    · subst he
      simp only [updTemp, if_pos rfl, lookupTemp]
      rw [if_neg (fun hh => h hh.symm), if_neg (fun hh => h hh.symm)]
    · simp only [updTemp, if_neg he, lookupTemp]
      by_cases hq : t' = u
      · rw [if_pos hq, if_pos hq]
      · rw [if_neg hq, if_neg hq]
        exact ih

theorem lookupFs_setFile_self (fs : FS) (p : String) (c : String) :
    lookupFs (setFile fs p c) p =
      (lookupFs fs p).map (fun fi => { fi with content := c }) := by
  induction fs with
  | nil => rfl
  | cons hd tl ih =>
    obtain ⟨k, fi⟩ := hd
    by_cases hk : k = p
    · subst hk
      have hset : setFile ((k, fi) :: tl) k c = (k, { fi with content := c }) :: tl := by
        simp [setFile]
      rw [hset]
      simp only [lookupFs]
      rw [if_pos trivial, if_pos trivial]
      rfl
    · have hset : setFile ((k, fi) :: tl) p c = (k, fi) :: setFile tl p c := by
        simp [setFile, hk]
      rw [hset]
      simp only [lookupFs]
      rw [if_neg hk, if_neg hk]
      exact ih

theorem lookupFs_setFile_ne (fs : FS) (p : String) (c : String) (q : String)
    (hqp : q ≠ p) : lookupFs (setFile fs p c) q = lookupFs fs q := by
  induction fs with
  | nil => rfl
  | cons hd tl ih =>
    obtain ⟨k, fi⟩ := hd
    by_cases hk : k = p
    · subst hk
      have hset : setFile ((k, fi) :: tl) k c = (k, { fi with content := c }) :: tl := by
        simp [setFile]
      rw [hset]
      simp only [lookupFs]
      rw [if_neg (fun hh => hqp hh.symm), if_neg (fun hh => hqp hh.symm)]
    · have hset : setFile ((k, fi) :: tl) p c = (k, fi) :: setFile tl p c := by
        simp [setFile, hk]
      rw [hset]
      simp only [lookupFs]
      by_cases hkq : k = q
      · rw [if_pos hkq, if_pos hkq]
      · rw [if_neg hkq, if_neg hkq]
        exact ih

theorem validateLoop_base (fs : FS) (ip : Bool) (n : Nat) (acc : Dict) (ts : Temps)
    {d : Dict} {ts' : Temps} {n' : Nat}
    (h : validateLoop fs ip [] n acc ts = .ok (d, ts', n')) :
    acc = d ∧ ts = ts' ∧ n = n' := by
  simp only [validateLoop, Except.ok.injEq, Prod.mk.injEq] at h
  exact ⟨h.1, h.2.1, h.2.2⟩

theorem validateLoop_cons_error (fs : FS) (ip : Bool) (a : String) (rest : List String)
    (n : Nat) (acc : Dict) (ts : Temps) (e : PyExc)
    (hg : get_dune_file_path fs a = .error e) :
    validateLoop fs ip (a :: rest) n acc ts = .error e := by
  simp [validateLoop, hg]

theorem validateLoop_cons_none (fs : FS) (ip : Bool) (a : String) (rest : List String)
    (n : Nat) (acc : Dict) (ts : Temps)
    (hg : get_dune_file_path fs a = .ok none) :
    validateLoop fs ip (a :: rest) n acc ts = .error .typeError := by
  simp [validateLoop, hg]

theorem validateLoop_cons_true (fs : FS) (a p : String) (rest : List String)
    (n : Nat) (acc : Dict) (ts : Temps)
    (hg : get_dune_file_path fs a = .ok (some p)) :
    validateLoop fs true (a :: rest) n acc ts =
      validateLoop fs true rest (n + 1) (dictInsert acc p (some n)) (ts ++ [(n, "")]) := by
  simp [validateLoop, hg]

theorem validateLoop_cons_false (fs : FS) (a p : String) (rest : List String)
    (n : Nat) (acc : Dict) (ts : Temps)
    (hg : get_dune_file_path fs a = .ok (some p)) :
    validateLoop fs false (a :: rest) n acc ts =
      validateLoop fs false rest n (dictInsert acc p none) ts := by
  simp [validateLoop, hg]

theorem validateLoop_inv (fs : FS) (l : List String) :
    ∀ (n : Nat) (acc : Dict) (ts : Temps) (d : Dict) (ts' : Temps) (n' : Nat),
      validateLoop fs true l n acc ts = .ok (d, ts', n') →
      (acc.map Prod.fst).Nodup →
      (∀ pr ∈ acc, ∃ t, pr.2 = some t ∧ t < n) →
      (ids acc).Nodup →
      (∀ pr ∈ acc, (lookupFs fs pr.1).isSome = true) →
      (d.map Prod.fst).Nodup ∧
        (∀ pr ∈ d, ∃ t, pr.2 = some t ∧ t < n') ∧
        (ids d).Nodup ∧
        (∀ pr ∈ d, (lookupFs fs pr.1).isSome = true) := by
  induction l with
  | nil =>
    intro n acc ts d ts' n' hval h1 h2 h3 h4
    obtain ⟨rfl, rfl, rfl⟩ := validateLoop_base fs true n acc ts hval
    exact ⟨h1, h2, h3, h4⟩
  | cons a rest ih =>
    intro n acc ts d ts' n' hval h1 h2 h3 h4
    cases hg : get_dune_file_path fs a with
    | error e =>
      rw [validateLoop_cons_error fs true a rest n acc ts e hg] at hval
      cases hval
    | ok op =>
      cases op with
      | none =>
        rw [validateLoop_cons_none fs true a rest n acc ts hg] at hval
        cases hval
      | some p =>
        obtain ⟨rfl, hlk⟩ := get_dune_ok_some hg
        rw [validateLoop_cons_true fs p p rest n acc ts hg] at hval
        obtain ⟨hf1, hf2⟩ := dictInsert_fresh h2 h3
        refine ih (n + 1) (dictInsert acc p (some n)) (ts ++ [(n, "")]) d ts' n' hval
          (keys_nodup_dictInsert h1) hf1 hf2 ?_
        intro pr hpr
        rcases mem_dictInsert hpr with he | hm
        · rw [he]
          exact hlk
        · exact h4 pr hm

theorem validateLoop_keys (fs : FS) (ip : Bool) (l : List String) :
    ∀ (n : Nat) (acc : Dict) (ts : Temps) (d : Dict) (ts' : Temps) (n' : Nat),
      validateLoop fs ip l n acc ts = .ok (d, ts', n') →
      d.map Prod.fst = dedupAppend (acc.map Prod.fst) l := by
  induction l with
  | nil =>
    intro n acc ts d ts' n' hval
    obtain ⟨rfl, -, -⟩ := validateLoop_base fs ip n acc ts hval
    rfl
  | cons a rest ih =>
    intro n acc ts d ts' n' hval
    cases hg : get_dune_file_path fs a with
    | error e =>
      rw [validateLoop_cons_error fs ip a rest n acc ts e hg] at hval
      cases hval
    | ok op =>
      cases op with
      | none =>
        rw [validateLoop_cons_none fs ip a rest n acc ts hg] at hval
        cases hval
      | some p =>
        obtain ⟨rfl, -⟩ := get_dune_ok_some hg
        cases ip with
        | true =>
          rw [validateLoop_cons_true fs p p rest n acc ts hg] at hval
          have hkeys := ih (n + 1) (dictInsert acc p (some n)) (ts ++ [(n, "")]) d ts' n' hval
          rw [keys_dictInsert] at hkeys
          simp only [dedupAppend]
          by_cases hm : p ∈ acc.map Prod.fst
          · rw [if_pos hm]
            rw [if_pos hm] at hkeys
            exact hkeys
          · rw [if_neg hm]
            rw [if_neg hm] at hkeys
            exact hkeys
        | false =>
          rw [validateLoop_cons_false fs p p rest n acc ts hg] at hval
          have hkeys := ih n (dictInsert acc p none) ts d ts' n' hval
          rw [keys_dictInsert] at hkeys
          simp only [dedupAppend]
          by_cases hm : p ∈ acc.map Prod.fst
          · rw [if_pos hm]
            rw [if_pos hm] at hkeys
            exact hkeys
          · rw [if_neg hm]
            rw [if_neg hm] at hkeys
            exact hkeys

theorem validateLoop_error (fs : FS) (ip : Bool) (a : String)
    (hbad : ∀ p, get_dune_file_path fs a ≠ .ok (some p)) :
    ∀ (l : List String), a ∈ l →
      ∀ (n : Nat) (acc : Dict) (ts : Temps),
        ∃ e, validateLoop fs ip l n acc ts = .error e := by
  intro l
  induction l with
  | nil => intro ha; cases ha
  | cons b rest ih =>
    intro ha n acc ts
    cases hg : get_dune_file_path fs b with
    | error e => exact ⟨e, validateLoop_cons_error fs ip b rest n acc ts e hg⟩
    | ok op =>
      cases op with
      | none => exact ⟨.typeError, validateLoop_cons_none fs ip b rest n acc ts hg⟩
      | some p =>
        rcases List.mem_cons.mp ha with rfl | ha'
        · exact absurd hg (hbad p)
        · obtain ⟨rfl, -⟩ := get_dune_ok_some hg
          cases ip with
          | true =>
            obtain ⟨e, he⟩ := ih ha' (n + 1) (dictInsert acc p (some n)) (ts ++ [(n, "")])
            exact ⟨e, by rw [validateLoop_cons_true fs p p rest n acc ts hg]; exact he⟩
          | false =>
            obtain ⟨e, he⟩ := ih ha' n (dictInsert acc p none) ts
            exact ⟨e, by rw [validateLoop_cons_false fs p p rest n acc ts hg]; exact he⟩

theorem dedupAppend_sub {acc l : List String} {x : String}
    (h : x ∈ acc) : x ∈ dedupAppend acc l := by
  induction l generalizing acc with
  | nil => simpa [dedupAppend] using h
  | cons a rest ih =>
    simp only [dedupAppend]
    by_cases hm : a ∈ acc
    · rw [if_pos hm]
      exact ih h
    · rw [if_neg hm]
      exact ih (List.mem_append_left _ h)

theorem mem_dedupAppend {acc l : List String} {x : String} (h : x ∈ l) :
    x ∈ dedupAppend acc l := by
  induction l generalizing acc with
  | nil => cases h
  | cons a rest ih =>
    simp only [dedupAppend]
    rcases List.mem_cons.mp h with rfl | hx
    · by_cases hm : x ∈ acc
      · rw [if_pos hm]
        exact dedupAppend_sub hm
      · rw [if_neg hm]
        exact dedupAppend_sub (List.mem_append_right _ (List.mem_singleton.mpr rfl))
    · by_cases hm : a ∈ acc
      · rw [if_pos hm]
        exact ih hx
      · rw [if_neg hm]
        exact ih hx

theorem dedupAppend_nodup {acc l : List String} (h : acc.Nodup) :
    (dedupAppend acc l).Nodup := by
  induction l generalizing acc with
  | nil => simpa [dedupAppend] using h
  | cons a rest ih =>
    simp only [dedupAppend]
    by_cases hm : a ∈ acc
    · rw [if_pos hm]
      exact ih h
    · rw [if_neg hm]
      exact ih (nodup_append_singleton h hm)

theorem dedupAppend_eq_self (acc l : List String)
    (hd : ∀ x ∈ l, x ∉ acc) (hn : l.Nodup) :
    dedupAppend acc l = acc ++ l := by
  induction l generalizing acc with
  | nil => simp [dedupAppend]
  | cons a rest ih =>
    simp only [dedupAppend]
    rw [if_neg (hd a (List.mem_cons_self a rest))]
    have hrest : ∀ x ∈ rest, x ∉ acc ++ [a] := by
      intro x hx hmem
      rcases List.mem_append.mp hmem with hmem | hmem
      · exact hd x (List.mem_cons_of_mem _ hx) hmem
      · exact (List.nodup_cons.mp hn).1 ((List.mem_singleton.mp hmem) ▸ hx)
    rw [ih (acc ++ [a]) hrest (List.nodup_cons.mp hn).2]
    simp

theorem formatLoop_nil (env : Env) (ip : Bool) (st : FmtState) :
    formatLoop env ip [] st = (none, st) := rfl

theorem formatLoop_cons_err (env : Env) (ip : Bool) (orig : String) (tmp : Option Nat)
    (rest : List (String × Option Nat)) (st : FmtState) (rc : Int) (s : String)
    (hf : env.fmt orig = .err rc s) :
    formatLoop env ip ((orig, tmp) :: rest) st =
      (some (.ret rc), { st with calls := st.calls ++ [orig] }) := by
  simp [formatLoop, hf]

theorem formatLoop_cons_unexpected_first (env : Env) (ip : Bool) (orig : String)
    (tmp : Option Nat) (rest : List (String × Option Nat)) (st : FmtState)
    (hf : env.fmt orig = .unexpected) (hb : st.havePrevRes = false) :
    formatLoop env ip ((orig, tmp) :: rest) st =
      (some (.exn .unboundLocalError), { st with calls := st.calls ++ [orig] }) := by
  simp [formatLoop, hf, hb]

theorem formatLoop_cons_unexpected_later (env : Env) (ip : Bool) (orig : String)
    (tmp : Option Nat) (rest : List (String × Option Nat)) (st : FmtState)
    (hf : env.fmt orig = .unexpected) (hb : st.havePrevRes = true) :
    formatLoop env ip ((orig, tmp) :: rest) st =
      (some (.ret 1), { st with calls := st.calls ++ [orig] }) := by
  simp [formatLoop, hf, hb]

theorem formatLoop_cons_ok_true_none (env : Env) (orig : String)
    (rest : List (String × Option Nat)) (st : FmtState) (s : String)
    (hf : env.fmt orig = .ok s) :
    formatLoop env true ((orig, none) :: rest) st =
      (some (.exn .fileNotFoundError),
        { st with calls := st.calls ++ [orig], havePrevRes := true }) := by
  simp [formatLoop, hf]

theorem formatLoop_cons_ok_true (env : Env) (orig : String) (t : Nat)
    (rest : List (String × Option Nat)) (st : FmtState) (s : String)
    (hf : env.fmt orig = .ok s) :
    formatLoop env true ((orig, some t) :: rest) st =
      formatLoop env true rest
        { temps := updTemp st.temps t s, stdout := st.stdout,
          calls := st.calls ++ [orig], havePrevRes := true } := by
  simp [formatLoop, hf]

theorem formatLoop_cons_ok_false (env : Env) (orig : String) (tmp : Option Nat)
    (rest : List (String × Option Nat)) (st : FmtState) (s : String)
    (hf : env.fmt orig = .ok s) :
    formatLoop env false ((orig, tmp) :: rest) st =
      formatLoop env false rest
        { temps := st.temps, stdout := st.stdout ++ s,
          calls := st.calls ++ [orig], havePrevRes := true } := by
  simp [formatLoop, hf]

theorem formatLoop_append (env : Env) (ip : Bool) :
    ∀ (l1 l2 : List (String × Option Nat)) (st st' : FmtState),
      formatLoop env ip l1 st = (none, st') →
      formatLoop env ip (l1 ++ l2) st = formatLoop env ip l2 st' := by
  intro l1
  induction l1 with
  | nil =>
    intro l2 st st' h
    rw [formatLoop_nil] at h
    obtain ⟨-, rfl⟩ : (none : Option Term) = none ∧ st = st' := by
      simpa [Prod.ext_iff] using h
    rfl
  | cons hd l1 ih =>
    intro l2 st st' h
    obtain ⟨orig, tmp⟩ := hd
    cases hf : env.fmt orig with
    | err rc s =>
      rw [formatLoop_cons_err env ip orig tmp l1 st rc s hf] at h
      simp at h
    | unexpected =>
      cases hb : st.havePrevRes with
      | false =>
        rw [formatLoop_cons_unexpected_first env ip orig tmp l1 st hf hb] at h
        simp at h
      | true =>
        rw [formatLoop_cons_unexpected_later env ip orig tmp l1 st hf hb] at h
        simp at h
    | ok s =>
      cases ip with
      | true =>
        cases tmp with
        | none =>
          rw [formatLoop_cons_ok_true_none env orig l1 st s hf] at h
          simp at h
        | some t =>
          rw [formatLoop_cons_ok_true env orig t l1 st s hf] at h
          rw [List.cons_append, formatLoop_cons_ok_true env orig t (l1 ++ l2) st s hf]
          exact ih l2 _ st' h
      | false =>
        rw [formatLoop_cons_ok_false env orig tmp l1 st s hf] at h
        rw [List.cons_append, formatLoop_cons_ok_false env orig tmp (l1 ++ l2) st s hf]
        exact ih l2 _ st' h

theorem formatLoop_done (env : Env) (ip : Bool) :
    ∀ (l : List (String × Option Nat)) (st : FmtState),
      (∀ pr ∈ l, ∃ s, env.fmt pr.1 = .ok s) →
      (ip = true → ∀ pr ∈ l, pr.2.isSome = true) →
      ∃ st', formatLoop env ip l st = (none, st') := by
  intro l
  induction l with
  | nil =>
    intro st _ _
    exact ⟨st, rfl⟩
  | cons hd rest ih =>
    intro st hok hsome
    obtain ⟨orig, tmp⟩ := hd
    obtain ⟨s, hs⟩ := hok (orig, tmp) (List.mem_cons_self _ _)
    simp only at hs
    cases ip with
    | true =>
      have htmp : tmp.isSome = true := hsome rfl (orig, tmp) (List.mem_cons_self _ _)
      cases tmp with
      | none => simp at htmp
      | some t =>
        obtain ⟨st', hst'⟩ := ih
          { temps := updTemp st.temps t s, stdout := st.stdout,
            calls := st.calls ++ [orig], havePrevRes := true }
          (fun pr h => hok pr (List.mem_cons_of_mem _ h))
          (fun _ pr h => hsome rfl pr (List.mem_cons_of_mem _ h))
        exact ⟨st', by rw [formatLoop_cons_ok_true env orig t rest st s hs]; exact hst'⟩
    | false =>
      obtain ⟨st', hst'⟩ := ih
        { temps := st.temps, stdout := st.stdout ++ s,
          calls := st.calls ++ [orig], havePrevRes := true }
        (fun pr h => hok pr (List.mem_cons_of_mem _ h))
        (fun hh => absurd hh (by simp))
      exact ⟨st', by rw [formatLoop_cons_ok_false env orig tmp rest st s hs]; exact hst'⟩

theorem formatLoop_inplace (env : Env) :
    ∀ (l : List (String × Option Nat)) (st : FmtState),
      (∀ pr ∈ l, ∃ s, env.fmt pr.1 = .ok s) →
      (∀ pr ∈ l, pr.2.isSome = true) →
      (ids l).Nodup →
      ∃ st', formatLoop env true l st = (none, st') ∧
        st'.calls = st.calls ++ l.map Prod.fst ∧
        st'.stdout = st.stdout ∧
        (∀ u, u ∉ ids l → lookupTemp st'.temps u = lookupTemp st.temps u) ∧
        (∀ p t, (p, some t) ∈ l → lookupTemp st'.temps t = some (outOf (env.fmt p))) := by
  intro l
  induction l with
  | nil =>
    intro st _ _ _
    exact ⟨st, rfl, by simp, rfl, fun u _ => rfl, fun p t h => absurd h (List.not_mem_nil _)⟩
  | cons hd rest ih =>
    intro st hok hsome hnd
    obtain ⟨orig, tmp⟩ := hd
    obtain ⟨s, hs⟩ := hok (orig, tmp) (List.mem_cons_self _ _)
    simp only at hs
    have htmp : tmp.isSome = true := hsome (orig, tmp) (List.mem_cons_self _ _)
    cases tmp with
    | none => simp at htmp
    | some t =>
      have hids : ids ((orig, some t) :: rest) = t :: ids rest := by
        simp [ids, List.filterMap_cons]
      rw [hids] at hnd
      have hnd' := (List.nodup_cons.mp hnd).2
      have htnin := (List.nodup_cons.mp hnd).1
      obtain ⟨st', hrec, hcalls, hout, hpres, hwrit⟩ := ih
        { temps := updTemp st.temps t s, stdout := st.stdout,
          calls := st.calls ++ [orig], havePrevRes := true }
        (fun pr h => hok pr (List.mem_cons_of_mem _ h))
        (fun pr h => hsome pr (List.mem_cons_of_mem _ h)) hnd'
      refine ⟨st', ?_, ?_, ?_, ?_, ?_⟩
      · rw [formatLoop_cons_ok_true env orig t rest st s hs]
        exact hrec
      · rw [hcalls]
        simp
      · rw [hout]
      · intro u hu
        rw [hids] at hu
        have hut : u ≠ t := fun he => hu (he ▸ List.mem_cons_self _ _)
        have hur : u ∉ ids rest := fun hm => hu (List.mem_cons_of_mem _ hm)
        rw [hpres u hur]
        exact lookupTemp_updTemp_ne hut
      · intro p t' hmem
        rcases List.mem_cons.mp hmem with he | hm
        · have hpo : p = orig ∧ t' = t := by
            simpa [Prod.ext_iff] using he
          rw [hpo.1, hpo.2, hpres t htnin, lookupTemp_updTemp_self, hs]
          rfl
        · exact hwrit p t' hm

theorem formatLoop_stream (env : Env) :
    ∀ (l : List (String × Option Nat)) (st : FmtState),
      (∀ pr ∈ l, ∃ s, env.fmt pr.1 = .ok s) →
      ∃ st', formatLoop env false l st = (none, st') ∧
        st'.calls = st.calls ++ l.map Prod.fst ∧
        st'.stdout = st.stdout ++ concatAll (l.map fun pr => outOf (env.fmt pr.1)) ∧
        st'.temps = st.temps := by
  intro l
  induction l with
  | nil =>
    intro st _
    exact ⟨st, rfl, by simp, by simp [concatAll], rfl⟩
  | cons hd rest ih =>
    intro st hok
    obtain ⟨orig, tmp⟩ := hd
    obtain ⟨s, hs⟩ := hok (orig, tmp) (List.mem_cons_self _ _)
    simp only at hs
    obtain ⟨st', hrec, hcalls, hout, htemps⟩ := ih
      { temps := st.temps, stdout := st.stdout ++ s,
        calls := st.calls ++ [orig], havePrevRes := true }
      (fun pr h => hok pr (List.mem_cons_of_mem _ h))
    refine ⟨st', ?_, ?_, ?_, htemps⟩
    · rw [formatLoop_cons_ok_false env orig tmp rest st s hs]
      exact hrec
    · rw [hcalls]
      simp
    · rw [hout]
      simp only [List.map_cons, concatAll, hs, outOf]
      rw [str_append_assoc]

theorem commitLoop_cons_some (ts : Temps) (orig : String) (t : Nat)
    (rest : List (String × Option Nat)) (fs : FS) :
    commitLoop ts ((orig, some t) :: rest) fs =
      commitLoop ts rest (setFile fs orig ((lookupTemp ts t).getD "")) := rfl

theorem commitLoop_props (ts : Temps) :
    ∀ (l : List (String × Option Nat)) (fs : FS),
      (∀ pr ∈ l, pr.2.isSome = true) →
      (l.map Prod.fst).Nodup →
      (∀ pr ∈ l, (lookupFs fs pr.1).isSome = true) →
      ∃ fs', commitLoop ts l fs = .ok fs' ∧
        (∀ q, q ∉ l.map Prod.fst → lookupFs fs' q = lookupFs fs q) ∧
        (∀ p t, (p, some t) ∈ l →
          lookupContent fs' p = some ((lookupTemp ts t).getD "")) := by
  intro l
  induction l with
  | nil =>
    intro fs _ _ _
    exact ⟨fs, rfl, fun q _ => rfl, fun p t h => absurd h (List.not_mem_nil _)⟩
  | cons hd rest ih =>
    intro fs hsome hnd hfs
    obtain ⟨orig, tmp⟩ := hd
    have htmp : tmp.isSome = true := hsome (orig, tmp) (List.mem_cons_self _ _)
    cases tmp with
    | none => simp at htmp
    | some t =>
      have hkeys : ((orig, some t) :: rest).map Prod.fst = orig :: rest.map Prod.fst := by
        simp
      rw [hkeys] at hnd
      have hnd' := (List.nodup_cons.mp hnd).2
      have honin := (List.nodup_cons.mp hnd).1
      have horig := hfs (orig, some t) (List.mem_cons_self _ _)
      simp only at horig
      have hfs2 : ∀ pr ∈ rest,
          (lookupFs (setFile fs orig ((lookupTemp ts t).getD "")) pr.1).isSome = true := by
        intro pr h
        by_cases he : pr.1 = orig
        · rw [he, lookupFs_setFile_self]
          cases hlo : lookupFs fs orig with
          | none => rw [hlo] at horig; simp at horig
          | some fi => rfl
        · rw [lookupFs_setFile_ne fs orig ((lookupTemp ts t).getD "") pr.1 he]
          exact hfs pr (List.mem_cons_of_mem _ h)
      obtain ⟨fs', hrec, hpres, hcont⟩ := ih (setFile fs orig ((lookupTemp ts t).getD ""))
        (fun pr h => hsome pr (List.mem_cons_of_mem _ h)) hnd' hfs2
      refine ⟨fs', ?_, ?_, ?_⟩
      · rw [commitLoop_cons_some]
        exact hrec
      · intro q hq
        rw [hkeys] at hq
        have hqo : q ≠ orig := fun he => hq (he ▸ List.mem_cons_self _ _)
        have hqr : q ∉ rest.map Prod.fst := fun hm => hq (List.mem_cons_of_mem _ hm)
        rw [hpres q hqr, lookupFs_setFile_ne fs orig ((lookupTemp ts t).getD "") q hqo]
      · intro p t' hmem
        rcases List.mem_cons.mp hmem with he | hm
        · have hpo : p = orig ∧ t' = t := by
            simpa [Prod.ext_iff] using he
          rw [hpo.1, hpo.2]
          simp only [lookupContent]
          rw [hpres orig honin, lookupFs_setFile_self]
          cases hlo : lookupFs fs orig with
          | none => rw [hlo] at horig; simp at horig
          | some fi => rfl
        · exact hcont p t' hm

/-! ## Unfolding lemmas for `real_main` -/

theorem real_main_version (env : Env) (args : Args) (fs : FS)
    (hv : args.version = true) :
    real_main env args fs =
      { term := .ret 0, fs := fs, stdout := versionStdout env, calls := [] } := by
  simp [real_main, hv]

theorem real_main_val_error (env : Env) (args : Args) (fs : FS) (e : PyExc)
    (hv : args.version = false)
    (hval : validateLoop fs args.in_place args.dune_files 0 [] [] = .error e) :
    real_main env args fs = { term := .exn e, fs := fs, stdout := "", calls := [] } := by
  simp [real_main, hv, hval]

theorem real_main_fmt_early_true (env : Env) (args : Args) (fs : FS)
    (d : Dict) (ts : Temps) (n' : Nat) (t : Term) (st : FmtState)
    (hv : args.version = false)
    (hip : args.in_place = true)
    (hval : validateLoop fs true args.dune_files 0 [] [] = .ok (d, ts, n'))
    (hfmt : formatLoop env true d
        { temps := ts, stdout := "", calls := [], havePrevRes := false } = (some t, st)) :
    real_main env args fs = { term := t, fs := fs, stdout := st.stdout, calls := st.calls } := by
  simp [real_main, hv, hip, hval, hfmt]

theorem real_main_fmt_early_false (env : Env) (args : Args) (fs : FS)
    (d : Dict) (ts : Temps) (n' : Nat) (t : Term) (st : FmtState)
    (hv : args.version = false)
    (hip : args.in_place = false)
    (hval : validateLoop fs false args.dune_files 0 [] [] = .ok (d, ts, n'))
    (hfmt : formatLoop env false d
        { temps := ts, stdout := "", calls := [], havePrevRes := false } = (some t, st)) :
    real_main env args fs = { term := t, fs := fs, stdout := st.stdout, calls := st.calls } := by
  simp [real_main, hv, hip, hval, hfmt]

theorem real_main_inplace_commit (env : Env) (args : Args) (fs : FS)
    (d : Dict) (ts : Temps) (n' : Nat) (st : FmtState) (fs2 : FS)
    (hv : args.version = false)
    (hip : args.in_place = true)
    (hval : validateLoop fs true args.dune_files 0 [] [] = .ok (d, ts, n'))
    (hfmt : formatLoop env true d
        { temps := ts, stdout := "", calls := [], havePrevRes := false } = (none, st))
    (hcommit : commitLoop st.temps d fs = .ok fs2) :
    real_main env args fs =
      { term := .ret 0, fs := fs2, stdout := st.stdout, calls := st.calls } := by
  simp [real_main, hv, hip, hval, hfmt, hcommit]

theorem real_main_stream_done (env : Env) (args : Args) (fs : FS)
    (d : Dict) (ts : Temps) (n' : Nat) (st : FmtState)
    (hv : args.version = false)
    (hip : args.in_place = false)
    (hval : validateLoop fs false args.dune_files 0 [] [] = .ok (d, ts, n'))
    (hfmt : formatLoop env false d
        { temps := ts, stdout := "", calls := [], havePrevRes := false } = (none, st)) :
    real_main env args fs =
      { term := .ret 0, fs := fs, stdout := st.stdout, calls := st.calls } := by
  simp [real_main, hv, hip, hval, hfmt]

theorem formatLoop_hits_unexpected (env : Env) (ip : Bool)
    (d1 d2 : List (String × Option Nat)) (K : String) (tK : Option Nat) (st : FmtState)
    (hok1 : ∀ pr ∈ d1, ∃ s, env.fmt pr.1 = .ok s)
    (hsome1 : ip = true → ∀ pr ∈ d1, pr.2.isSome = true)
    (hK : env.fmt K = .unexpected) :
    ∃ t st2, formatLoop env ip (d1 ++ (K, tK) :: d2) st = (some t, st2) ∧
      main_dispatch t = 1 := by
  obtain ⟨st', hst'⟩ := formatLoop_done env ip d1 st hok1 hsome1
  rw [formatLoop_append env ip d1 ((K, tK) :: d2) st st' hst']
  cases hb : st'.havePrevRes with
  | false =>
    exact ⟨.exn .unboundLocalError, { st' with calls := st'.calls ++ [K] },
      formatLoop_cons_unexpected_first env ip K tK d2 st' hK hb, rfl⟩
  | true =>
    exact ⟨.ret 1, { st' with calls := st'.calls ++ [K] },
      formatLoop_cons_unexpected_later env ip K tK d2 st' hK hb, rfl⟩

/-! ## The claims -/

/-- Claim C1: in in-place mode, over a batch of valid input files, if the
formatter subprocess for some file K exits non-zero (every file staged before K
having formatted successfully), then `real_main` returns that subprocess's exit
code, `main` propagates it as the process exit code, and the whole filesystem —
in particular every original file of the batch — is left byte-identical to its
pre-run state: no temporary file is committed over any original. -/
theorem c1_batch_atomic_on_failure (env : Env) (args : Args) (fs : FS)
    (d : Dict) (ts : Temps) (n' : Nat)
    (d1 d2 : List (String × Option Nat)) (K : String) (tK : Option Nat)
    (rc : Int) (serr : String)
    (hv : args.version = false)
    (hip : args.in_place = true)
    (hval : validateLoop fs args.in_place args.dune_files 0 [] [] = .ok (d, ts, n'))
    (hsplit : d = d1 ++ (K, tK) :: d2)
    (hok1 : ∀ pr ∈ d1, ∃ s, env.fmt pr.1 = .ok s)
    (hK : env.fmt K = .err rc serr) :
    (real_main env args fs).term = .ret rc ∧
      main_dispatch (real_main env args fs).term = rc ∧
      (real_main env args fs).fs = fs := by
  rw [hip] at hval
  obtain ⟨-, hall, -, -⟩ :=
    validateLoop_inv fs args.dune_files 0 [] [] d ts n' hval
      (by simp) (by simp) (by simp [ids]) (by simp)
  have hsome1 : ∀ pr ∈ d1, pr.2.isSome = true := by
    intro pr h
    obtain ⟨u, hu, -⟩ := hall pr (by rw [hsplit]; exact List.mem_append_left _ h)
    rw [hu]
    rfl
  obtain ⟨st', hst'⟩ := formatLoop_done env true d1
    { temps := ts, stdout := "", calls := [], havePrevRes := false }
    hok1 (fun _ => hsome1)
  have hstep : formatLoop env true ((K, tK) :: d2) st' =
      (some (.ret rc), { st' with calls := st'.calls ++ [K] }) :=
    formatLoop_cons_err env true K tK d2 st' rc serr hK
  have hfmt : formatLoop env true d
      { temps := ts, stdout := "", calls := [], havePrevRes := false } =
      (some (.ret rc), { st' with calls := st'.calls ++ [K] }) := by
    rw [hsplit, formatLoop_append env true d1 ((K, tK) :: d2) _ st' hst', hstep]
  rw [real_main_fmt_early_true env args fs d ts n' (.ret rc) _ hv hip hval hfmt]
  exact ⟨rfl, rfl, rfl⟩

/-- Witness for claim C1: a two-file batch whose second file fails with exit
code 2; the program returns 2 and the filesystem is untouched. -/
theorem c1_batch_atomic_on_failure_witness :
    (real_main envW1 argsW1 fsW1).term = .ret 2 ∧
      main_dispatch (real_main envW1 argsW1 fsW1).term = 2 ∧
      (real_main envW1 argsW1 fsW1).fs = fsW1 :=
  c1_batch_atomic_on_failure envW1 argsW1 fsW1
    [("a/dune", some 0), ("b/dune", some 1)] [(0, ""), (1, "")] 2
    [("a/dune", some 0)] [] "b/dune" (some 1) 2 "boom"
    rfl rfl rfl rfl
    (by
      intro pr h
      simp only [List.mem_singleton] at h
      subst h
      exact ⟨"fa", rfl⟩)
    rfl

/-- Claim C2: in in-place mode, when every file of a valid batch formats
successfully, `real_main` returns 0 and each input file's final content is
exactly the formatter subprocess's captured standard output for that file. -/
theorem c2_inplace_success_contents (env : Env) (args : Args) (fs : FS)
    (d : Dict) (ts : Temps) (n' : Nat)
    (hv : args.version = false)
    (hip : args.in_place = true)
    (hval : validateLoop fs args.in_place args.dune_files 0 [] [] = .ok (d, ts, n'))
    (hok : ∀ pr ∈ d, ∃ s, env.fmt pr.1 = .ok s) :
    (real_main env args fs).term = .ret 0 ∧
      ∀ a ∈ args.dune_files, ∀ s, env.fmt a = .ok s →
        lookupContent (real_main env args fs).fs a = some s := by
  rw [hip] at hval
  obtain ⟨hknd, hall, hidnd, hlk⟩ :=
    validateLoop_inv fs args.dune_files 0 [] [] d ts n' hval
      (by simp) (by simp) (by simp [ids]) (by simp)
  have hsome : ∀ pr ∈ d, pr.2.isSome = true := by
    intro pr h
    obtain ⟨u, hu, -⟩ := hall pr h
    rw [hu]
    rfl
  obtain ⟨st', hfmt, hcalls, hout, hpres, hwrit⟩ :=
    formatLoop_inplace env d
      { temps := ts, stdout := "", calls := [], havePrevRes := false } hok hsome hidnd
  obtain ⟨fs2, hcommit, hcpres, hccont⟩ := commitLoop_props st'.temps d fs hsome hknd hlk
  rw [real_main_inplace_commit env args fs d ts n' st' fs2 hv hip hval hfmt hcommit]
  refine ⟨rfl, ?_⟩
  intro a ha s hsa
  have hkeys : d.map Prod.fst = dedupAppend [] args.dune_files := by
    simpa using validateLoop_keys fs true args.dune_files 0 [] [] d ts n' hval
  have hamem : a ∈ d.map Prod.fst := by
    rw [hkeys]
    exact mem_dedupAppend ha
  obtain ⟨pr, hprd, hpra⟩ := List.mem_map.mp hamem
  obtain ⟨t, ht, -⟩ := hall pr hprd
  obtain ⟨p0, t0⟩ := pr
  simp only at hpra ht
  subst hpra
  subst ht
  have hwt := hwrit p0 t hprd
  have hct := hccont p0 t hprd
  show lookupContent fs2 p0 = some s
  rw [hct, hwt, hsa]
  rfl

/-- Witness for claim C2: both files of a two-file in-place batch end up
holding exactly the formatter's captured stdout. -/
theorem c2_inplace_success_contents_witness :
    (real_main envW2 argsW2 fsW2).term = .ret 0 ∧
      lookupContent (real_main envW2 argsW2 fsW2).fs "a/dune" = some "fa" ∧
      lookupContent (real_main envW2 argsW2 fsW2).fs "b/dune" = some "fb" := by
  have h := c2_inplace_success_contents envW2 argsW2 fsW2
    [("a/dune", some 0), ("b/dune", some 1)] [(0, ""), (1, "")] 2
    rfl rfl rfl
    (by
      intro pr hpr
      rcases List.mem_cons.mp hpr with hh | hh
      · subst hh
        exact ⟨"fa", rfl⟩
      · simp only [List.mem_singleton] at hh
        subst hh
        exact ⟨"fb", rfl⟩)
  exact ⟨h.1, h.2 "a/dune" (by decide) "fa" rfl, h.2 "b/dune" (by decide) "fb" rfl⟩

/-- Claim C3: in stream mode (no `-i`), no input file is ever mutated — the
filesystem is returned unchanged under every outcome — and on success the
program's standard output is the concatenation, in input order, of the
formatter outputs for the input files (duplicate occurrences of a file
collapse, cf. claim C9; for duplicate-free argument lists this is literally
the concatenation over the argument list). -/
theorem c3_stream_no_mutation_output (env : Env) (args : Args) (fs : FS)
    (hip : args.in_place = false) :
    (real_main env args fs).fs = fs ∧
      ∀ (d : Dict) (ts : Temps) (n' : Nat), args.version = false →
        validateLoop fs args.in_place args.dune_files 0 [] [] = .ok (d, ts, n') →
        (∀ pr ∈ d, ∃ s, env.fmt pr.1 = .ok s) →
        (real_main env args fs).term = .ret 0 ∧
          (real_main env args fs).stdout =
            concatAll ((dedupAppend [] args.dune_files).map fun p => outOf (env.fmt p)) ∧
          (args.dune_files.Nodup →
            (real_main env args fs).stdout =
              concatAll (args.dune_files.map fun p => outOf (env.fmt p))) := by
  constructor
  · cases hv : args.version with
    | true => rw [real_main_version env args fs hv]
    | false =>
      cases hE : validateLoop fs args.in_place args.dune_files 0 [] [] with
      | error e => rw [real_main_val_error env args fs e hv hE]
      | ok res =>
        obtain ⟨d, ts, n'⟩ := res
        rw [hip] at hE
        cases hF : formatLoop env false d
            { temps := ts, stdout := "", calls := [], havePrevRes := false } with
        | mk ot st =>
          cases ot with
          | some t => rw [real_main_fmt_early_false env args fs d ts n' t st hv hip hE hF]
          | none => rw [real_main_stream_done env args fs d ts n' st hv hip hE hF]
  · intro d ts n' hv hval hok
    rw [hip] at hval
    obtain ⟨st', hfmt, hcalls, hout, -⟩ :=
      formatLoop_stream env d
        { temps := ts, stdout := "", calls := [], havePrevRes := false } hok
    rw [real_main_stream_done env args fs d ts n' st' hv hip hval hfmt]
    have hkeys : d.map Prod.fst = dedupAppend [] args.dune_files := by
      simpa using validateLoop_keys fs false args.dune_files 0 [] [] d ts n' hval
    have hstd : st'.stdout =
        concatAll ((dedupAppend [] args.dune_files).map fun p => outOf (env.fmt p)) := by
      rw [hout, ← hkeys, List.map_map]
      show "" ++ _ = _
      rw [str_empty_append]
      rfl
    refine ⟨rfl, hstd, ?_⟩
    intro hnd
    have h2 : dedupAppend [] args.dune_files = args.dune_files := by
      have h3 := dedupAppend_eq_self [] args.dune_files (by intro x hx; simp) hnd
      simpa using h3
    rw [h2] at hstd
    exact hstd

/-- Witness for claim C3: a stream-mode run over two distinct valid files
leaves the filesystem unchanged, exits 0, and prints the concatenated
formatter outputs in input order. -/
theorem c3_stream_no_mutation_output_witness :
    (real_main envW3 argsW3 fsW3).fs = fsW3 ∧
      (real_main envW3 argsW3 fsW3).term = .ret 0 ∧
      (real_main envW3 argsW3 fsW3).stdout =
        concatAll (argsW3.dune_files.map fun p => outOf (envW3.fmt p)) := by
  have h := c3_stream_no_mutation_output envW3 argsW3 fsW3 rfl
  have h2 := h.2 [("a/dune", none), ("b/dune", none)] [] 0 rfl rfl
    (by
      intro pr hpr
      rcases List.mem_cons.mp hpr with hh | hh
      · subst hh
        exact ⟨"X", rfl⟩
      · simp only [List.mem_singleton] at hh
        subst hh
        exact ⟨"Y", rfl⟩)
  exact ⟨h.1, h2.1, h2.2.2 (by decide)⟩

/-- Claim C4: for an input path whose base name is not `dune`, `dune-project`
or `dune-workspace`, the resolver yields the wrong-name (`NotADuneFile`)
outcome for that path, the run aborts with an exception during validation, the
process exit code is 1 (non-zero), and no formatter subprocess is ever invoked
on any file of the batch. -/
theorem c4_wrong_name_aborts (env : Env) (args : Args) (fs : FS) (a : String)
    (ha : a ∈ args.dune_files)
    (hname : baseName a ∉ dune_file_names)
    (hv : args.version = false) :
    get_dune_file_path fs a = .ok none ∧
      (∃ e, (real_main env args fs).term = .exn e) ∧
      main_dispatch (real_main env args fs).term = 1 ∧
      (real_main env args fs).calls = [] := by
  have hres : get_dune_file_path fs a = .ok none := get_dune_wrong_name fs a (Or.inr hname)
  have hbad : ∀ p, get_dune_file_path fs a ≠ .ok (some p) := by
    intro p hc
    rw [hres] at hc
    simp at hc
  obtain ⟨e, he⟩ := validateLoop_error fs args.in_place a hbad args.dune_files ha 0 [] []
  rw [real_main_val_error env args fs e hv he]
  exact ⟨hres, ⟨e, rfl⟩, rfl, rfl⟩

/-- Witness for claim C4: the batch `["BUILD.bazel"]` aborts with exit code 1
and never invokes the formatter. -/
theorem c4_wrong_name_aborts_witness :
    get_dune_file_path fsW4 "BUILD.bazel" = .ok none ∧
      main_dispatch (real_main envW4 argsW4 fsW4).term = 1 ∧
      (real_main envW4 argsW4 fsW4).calls = [] := by
  have h := c4_wrong_name_aborts envW4 argsW4 fsW4 "BUILD.bazel" (by decide) (by decide) rfl
  exact ⟨h.1, h.2.2.1, h.2.2.2⟩

/-- Claim C5: for an input file (an existing regular file with a permitted
base name) lacking read or write permission, the resolver raises
`PermissionError`, the run aborts with an exception during validation, the
process exit code is 1 (non-zero), and no formatter subprocess is ever started
on any file. -/
theorem c5_permission_denied_aborts (env : Env) (args : Args) (fs : FS)
    (a : String) (fi : FileInfo)
    (ha : a ∈ args.dune_files)
    (hlook : lookupFs fs a = some fi)
    (hname : baseName a ∈ dune_file_names)
    (hperm : fi.readable = false ∨ fi.writable = false)
    (hv : args.version = false) :
    get_dune_file_path fs a = .error .permissionError ∧
      (∃ e, (real_main env args fs).term = .exn e) ∧
      main_dispatch (real_main env args fs).term = 1 ∧
      (real_main env args fs).calls = [] := by
  have hres := get_dune_perm fs a fi hlook hname hperm
  have hbad : ∀ p, get_dune_file_path fs a ≠ .ok (some p) := by
    intro p hc
    rw [hres] at hc
    simp at hc
  obtain ⟨e, he⟩ := validateLoop_error fs args.in_place a hbad args.dune_files ha 0 [] []
  rw [real_main_val_error env args fs e hv he]
  exact ⟨hres, ⟨e, rfl⟩, rfl, rfl⟩

/-- Witness for claim C5: an unreadable `dune` file aborts the run with exit
code 1 before any formatter invocation. -/
theorem c5_permission_denied_aborts_witness :
    get_dune_file_path fsW5 "dune" = .error .permissionError ∧
      main_dispatch (real_main envW5 argsW5 fsW5).term = 1 ∧
      (real_main envW5 argsW5 fsW5).calls = [] := by
  have h := c5_permission_denied_aborts envW5 argsW5 fsW5 "dune" ⟨"c", false, true⟩
    (by decide) rfl (by decide) (Or.inl rfl) rfl
  exact ⟨h.1, h.2.2.1, h.2.2.2⟩

/-- Claim C6: when a formatter subprocess invocation fails unexpectedly (an
exception other than a non-zero exit) at some file of the batch, the program's
exit code is 1 — either via the handler's `return 1`, or via the
`UnboundLocalError` on `df_res` escaping to `main` when no earlier subprocess
had run. -/
theorem c6_unexpected_failure_exit_one (env : Env) (args : Args) (fs : FS)
    (d : Dict) (ts : Temps) (n' : Nat)
    (d1 d2 : List (String × Option Nat)) (K : String) (tK : Option Nat)
    (hv : args.version = false)
    (hval : validateLoop fs args.in_place args.dune_files 0 [] [] = .ok (d, ts, n'))
    (hsplit : d = d1 ++ (K, tK) :: d2)
    (hok1 : ∀ pr ∈ d1, ∃ s, env.fmt pr.1 = .ok s)
    (hK : env.fmt K = .unexpected) :
    main_dispatch (real_main env args fs).term = 1 := by
  cases hip : args.in_place with
  | true =>
    rw [hip] at hval
    obtain ⟨-, hall, -, -⟩ :=
      validateLoop_inv fs args.dune_files 0 [] [] d ts n' hval
        (by simp) (by simp) (by simp [ids]) (by simp)
    have hsome1 : ∀ pr ∈ d1, pr.2.isSome = true := by
      intro pr h
      obtain ⟨u, hu, -⟩ := hall pr (by rw [hsplit]; exact List.mem_append_left _ h)
      rw [hu]
      rfl
    obtain ⟨t, st2, hfmt, hmd⟩ := formatLoop_hits_unexpected env true d1 d2 K tK
      { temps := ts, stdout := "", calls := [], havePrevRes := false }
      hok1 (fun _ => hsome1) hK
    rw [← hsplit] at hfmt
    rw [real_main_fmt_early_true env args fs d ts n' t st2 hv hip hval hfmt]
    exact hmd
  | false =>
    rw [hip] at hval
    obtain ⟨t, st2, hfmt, hmd⟩ := formatLoop_hits_unexpected env false d1 d2 K tK
      { temps := ts, stdout := "", calls := [], havePrevRes := false }
      hok1 (fun hh => absurd hh (by simp)) hK
    rw [← hsplit] at hfmt
    rw [real_main_fmt_early_false env args fs d ts n' t st2 hv hip hval hfmt]
    exact hmd

/-- Witness for claim C6: the formatter vanishing on the very first file still
gives exit code 1 (through the unbound `df_res` exception reaching `main`). -/
theorem c6_unexpected_failure_exit_one_witness :
    main_dispatch (real_main envW6 argsW6 fsW6).term = 1 :=
  c6_unexpected_failure_exit_one envW6 argsW6 fsW6
    [("dune", none)] [] 0 [] [] "dune" none
    rfl rfl rfl
    (by intro pr hpr; exact absurd hpr (List.not_mem_nil _))
    rfl

/-- Claim C7: a `KeyboardInterrupt` reaching `main`'s top level is caught by
its dedicated handler (it is not an `Exception` subclass) and the program
exits with code 0 rather than treating the interrupt as an error. -/
theorem c7_keyboard_interrupt_exit_zero : main_dispatch Term.kbInterrupt = 0 := rfl

/-- Claim C8: with `--version`, `real_main` prints this tool's version line and
the formatter's reported version, returns 0 (propagated by `main`), never
mutates the filesystem, and never invokes the formatter on any input file. -/
theorem c8_version_flag (env : Env) (args : Args) (fs : FS)
    (hv : args.version = true) :
    (real_main env args fs).term = .ret 0 ∧
      main_dispatch (real_main env args fs).term = 0 ∧
      (real_main env args fs).fs = fs ∧
      (real_main env args fs).calls = [] ∧
      (real_main env args fs).stdout = versionStdout env := by
  rw [real_main_version env args fs hv]
  exact ⟨rfl, rfl, rfl, rfl, rfl⟩

/-- Witness for claim C8: a `--version` run exits 0, touches no file, invokes
no formatter on input files, and prints exactly the two version lines. -/
theorem c8_version_flag_witness :
    (real_main envW8 argsW8 fsW8).term = .ret 0 ∧
      main_dispatch (real_main envW8 argsW8 fsW8).term = 0 ∧
      (real_main envW8 argsW8 fsW8).fs = fsW8 ∧
      (real_main envW8 argsW8 fsW8).calls = [] ∧
      (real_main envW8 argsW8 fsW8).stdout = versionStdout envW8 :=
  c8_version_flag envW8 argsW8 fsW8 rfl

/-- Claim C9: duplicate occurrences of the same valid path collapse before the
formatting loop runs — validated paths are dictionary keys — so the formatter
is invoked exactly once per distinct input file: the call list is the
first-occurrence deduplication of the argument list, and each argument is
formatted exactly once. -/
theorem c9_duplicate_args_collapse (env : Env) (args : Args) (fs : FS)
    (d : Dict) (ts : Temps) (n' : Nat)
    (hv : args.version = false)
    (hval : validateLoop fs args.in_place args.dune_files 0 [] [] = .ok (d, ts, n'))
    (hok : ∀ pr ∈ d, ∃ s, env.fmt pr.1 = .ok s) :
    (real_main env args fs).calls = dedupAppend [] args.dune_files ∧
      ∀ a ∈ args.dune_files, (real_main env args fs).calls.count a = 1 := by
  have hcount : ∀ a ∈ args.dune_files, (dedupAppend [] args.dune_files).count a = 1 := by
    intro a ha
    exact List.count_eq_one_of_mem (dedupAppend_nodup List.nodup_nil) (mem_dedupAppend ha)
  suffices hc : (real_main env args fs).calls = dedupAppend [] args.dune_files by
    refine ⟨hc, ?_⟩
    intro a ha
    rw [hc]
    exact hcount a ha
  cases hip : args.in_place with
  | true =>
    rw [hip] at hval
    obtain ⟨hknd, hall, hidnd, hlk⟩ :=
      validateLoop_inv fs args.dune_files 0 [] [] d ts n' hval
        (by simp) (by simp) (by simp [ids]) (by simp)
    have hsome : ∀ pr ∈ d, pr.2.isSome = true := by
      intro pr h
      obtain ⟨u, hu, -⟩ := hall pr h
      rw [hu]
      rfl
    obtain ⟨st', hfmt, hcalls, -, -, -⟩ :=
      formatLoop_inplace env d
        { temps := ts, stdout := "", calls := [], havePrevRes := false } hok hsome hidnd
    obtain ⟨fs2, hcommit, -, -⟩ := commitLoop_props st'.temps d fs hsome hknd hlk
    rw [real_main_inplace_commit env args fs d ts n' st' fs2 hv hip hval hfmt hcommit]
    show st'.calls = _
    have hkeys : d.map Prod.fst = dedupAppend [] args.dune_files := by
      simpa using validateLoop_keys fs true args.dune_files 0 [] [] d ts n' hval
    rw [hcalls, ← hkeys]
    simp
  | false =>
    rw [hip] at hval
    obtain ⟨st', hfmt, hcalls, -, -⟩ :=
      formatLoop_stream env d
        { temps := ts, stdout := "", calls := [], havePrevRes := false } hok
    rw [real_main_stream_done env args fs d ts n' st' hv hip hval hfmt]
    show st'.calls = _
    have hkeys : d.map Prod.fst = dedupAppend [] args.dune_files := by
      simpa using validateLoop_keys fs false args.dune_files 0 [] [] d ts n' hval
    rw [hcalls, ← hkeys]
    simp

/-- Witness for claim C9: naming `dune` twice formats it exactly once. -/
theorem c9_duplicate_args_collapse_witness :
    (real_main envW9 argsW9 fsW9).calls = dedupAppend [] argsW9.dune_files ∧
      (real_main envW9 argsW9 fsW9).calls.count "dune" = 1 := by
  have h := c9_duplicate_args_collapse envW9 argsW9 fsW9
    [("dune", none)] [] 0 rfl rfl
    (by
      intro pr hpr
      simp only [List.mem_singleton] at hpr
      subst hpr
      exact ⟨"Z", rfl⟩)
  exact ⟨h.1, h.2 "dune" (by decide)⟩

/-- Claim C10: a path that is not an existing regular file resolves to the
wrong-name (`None`) outcome even when its base name is permitted, and a
permitted-name check failure likewise yields `None`: the permission checks run
only on existing regular files with a permitted name, so the wrong-name error
always takes precedence over any permission error. -/
theorem c10_wrong_name_precedence (fs : FS) (a : String)
    (h : lookupFs fs a = none ∨ baseName a ∉ dune_file_names) :
    get_dune_file_path fs a = .ok none ∧
      ∀ e, get_dune_file_path fs a ≠ .error e := by
  have hres := get_dune_wrong_name fs a h
  refine ⟨hres, ?_⟩
  intro e hc
  rw [hres] at hc
  simp at hc

/-- Witness for claim C10: a non-existent path named `ghost/dune` resolves to
the wrong-name outcome, not to a permission error. -/
theorem c10_wrong_name_precedence_witness :
    get_dune_file_path ([] : FS) "ghost/dune" = .ok none ∧
      get_dune_file_path ([] : FS) "ghost/dune" ≠ .error .permissionError := by
  have h := c10_wrong_name_precedence ([] : FS) "ghost/dune" (Or.inl rfl)
  exact ⟨h.1, h.2 .permissionError⟩

end DuneFormat
